import Mathlib

/-!
# canvas-utils: a shallow embedding of `main.go`

The program fetches planner items from the Canvas REST API, filters them by
type, follows the `Link` header through the result pages until 25 items are
gathered, and prints their titles.

Conventions of the embedding:

* Go strings are Lean `String`s (sequences of Unicode code points).  Every
  separator and cutset character used by the program is ASCII, and on a
  well-formed UTF-8 string splitting at / trimming ASCII bytes coincides with
  splitting at / trimming the same code points.
* A Go run-time panic is the `Except.error` branch, carrying the panic text.
* A nilable Go pointer or error value is an `Option`.
* `map[string]string` is an association list with unique keys; reading a
  missing key yields the zero value `""`.
* Calls into the network are answered by an explicit environment.
-/

namespace CanvasUtils

/-! ## The Go standard-library string functions used by the program -/

namespace strings

/-- Split a character list at every occurrence of `sep`.  The result always has
exactly one more element than `s` has occurrences of `sep`; in particular
splitting the empty list yields one empty piece. -/
def splitChars (sep : Char) : List Char → List (List Char)
  | [] => [[]]
  | c :: cs =>
    if c = sep then [] :: splitChars sep cs
    else
      match splitChars sep cs with
      | [] => [[c]]
      | p :: ps => (c :: p) :: ps

/-- Go `strings.Split(s, sep)` for a one-character separator, which is how both
call sites of the program use it (`","` and `";"`). -/
def Split (s : String) (sep : Char) : List String :=
  (splitChars sep s.toList).map String.mk

/-- Remove the leading characters of `s` that belong to `cutset`. -/
def trimLeftChars (cutset : List Char) (s : List Char) : List Char :=
  s.dropWhile (fun c => cutset.contains c)

/-- Remove the trailing characters of `s` that belong to `cutset`. -/
def trimRightChars (cutset : List Char) (s : List Char) : List Char :=
  (s.reverse.dropWhile (fun c => cutset.contains c)).reverse

/-- Go `strings.Trim(s, cutset)`: `s` with all leading and trailing code points
contained in `cutset` removed.  The second argument is a SET of characters, not
a prefix or suffix. -/
def Trim (s cutset : String) : String :=
  String.mk (trimLeftChars cutset.toList (trimRightChars cutset.toList s.toList))

end strings

/-! ## Go maps from string to string -/

/-- A `map[string]string`: an association list in which every key occurs at
most once. -/
abbrev GoMap := List (String × String)

namespace GoMap

/-- The assignment `m[k] = v`: overwrite the entry of `k`, or add one. -/
def set : GoMap → String → String → GoMap
  | [], k, v => [(k, v)]
  | (k', v') :: m, k, v => if k' = k then (k, v) :: m else (k', v') :: set m k v

/-- The two-result read `v, ok := m[k]`. -/
def lookup : GoMap → String → Option String
  | [], _ => none
  | (k', v') :: m, k => if k' = k then some v' else lookup m k

/-- The read `m[k]`: the stored value, or the zero value `""` when the key is
absent. -/
def get (m : GoMap) (k : String) : String :=
  (lookup m k).getD ""

end GoMap

/-! ## `ParseLinkHeader` -/

/-- One iteration of the loop of `ParseLinkHeader` (source lines 144-155): the
key and the value that the comma-separated `part` makes the loop store.
`urlAndRel[0]` always exists, because `strings.Split` never returns an empty
slice; `urlAndRel[1]` panics when `part` holds no `';'`. -/
def linkEntry (CANVAS_ACCESS_TOKEN part : String) : Except String (String × String) :=
  let urlAndRel := strings.Split part ';'
  let url := strings.Trim (urlAndRel.headD "") " <>"
  match urlAndRel.get? 1 with
  | none =>
    Except.error ("index out of range [1] with length " ++ toString urlAndRel.length)
  | some second =>
    let rel := strings.Trim second " "
    let rel := strings.Trim rel "rel=\""
    let rel := strings.Trim rel "\""
    let url := url ++ ("&access_token=" ++ CANVAS_ACCESS_TOKEN)
    Except.ok (rel, url)

/-- The `for _, part := range linkParts` loop of `ParseLinkHeader`, threading the
map under construction. -/
def parseParts (CANVAS_ACCESS_TOKEN : String) : List String → GoMap → Except String GoMap
  | [], links => Except.ok links
  | part :: rest, links =>
    match linkEntry CANVAS_ACCESS_TOKEN part with
    | Except.error e => Except.error e
    | Except.ok (rel, url) => parseParts CANVAS_ACCESS_TOKEN rest (GoMap.set links rel url)

/-- `ParseLinkHeader(linkHeader)`.  The value of the environment variable
`CANVAS_ACCESS_TOKEN`, which the function reads itself, is the first
argument. -/
def ParseLinkHeader (CANVAS_ACCESS_TOKEN linkHeader : String) : Except String GoMap :=
  let linkParts := strings.Split linkHeader ','
  parseParts CANVAS_ACCESS_TOKEN linkParts []

/-! ## The data model -/

/-- A Go `time.Time`, kept as an instant on the Unix time line. -/
structure Time where
  unixNano : Int

/-- The anonymous struct type of the field `PlannerOverride`. -/
structure PlannerOverride where
  ID : Int
  PlannableType : String
  PlannableID : Int
  UserID : Int
  WorkflowState : String
  MarkedComplete : Bool
  DeletedAt : Time
  CreatedAt : Time
  UpdatedAt : Time
  Dismissed : Bool
  AssignmentID : Int

/-- The anonymous struct type of the field `Plannable` (the item's detail). -/
structure PlannableDetail where
  ID : Int
  Title : String
  UnreadCount : Int
  ReadState : String
  CreatedAt : Time
  UpdatedAt : Time

/-- The struct `Plannable`: one planner item.  `Submissions` has the Go type
`interface{}`; it is kept as the undecoded JSON text, `none` for nil. -/
structure Plannable where
  ContextType : String
  CourseID : Int
  PlannableID : Int
  PlannerOverride : PlannerOverride
  PlannableType : String
  NewActivity : Bool
  Submissions : Option String
  PlannableDate : Time
  Plannable : PlannableDetail
  HTMLURL : String
  ContextName : String
  ContextImage : String

/-- The struct `Params`. -/
structure Params where
  key : String
  value : String

/-- The struct `Response`. -/
structure Response where
  plannables : List Plannable
  url_response : GoMap

/-- What a call leaves behind: the text it wrote to standard output, and either
its return value or the panic that ended it. -/
structure Outcome (α : Type) where
  printed : String
  result : Except String α

/-! ## `GetPlannables` -/

/-- The part of a `*http.Response` the program reads: the body stream (named by
a handle, since reading it is answered by the environment) and the value of
`Header.Get("Link")`, which is `""` when the header is absent. -/
structure HTTPResponse where
  Body : Nat
  Link : String

/-- The answers of the world outside the program to one call of `GetPlannables`.
A `*http.Request` is represented by its URL. -/
structure Net where
  /-- Result pair `(req, err)` of `http.NewRequest("GET", url, nil)`. -/
  NewRequest : String → Option String × Option String
  /-- Result pair `(res, err)` of `http.DefaultClient.Do(req)`, or the panic
  raised inside the call. -/
  Do : Option String → Except String (Option HTTPResponse × Option String)
  /-- Result pair `(body, readErr)` of `io.ReadAll(res.Body)`. -/
  ReadAll : Nat → String × Option String
  /-- Result of `json.Unmarshal(body, &plannables)`: the error, or the decoded
  slice. -/
  Unmarshal : String → Except String (List Plannable)

/-- The panic text of a nil dereference. -/
def nilDereference : String :=
  "invalid memory address or nil pointer dereference"

/-- The statement `if e != nil { fmt.Print(e.Error()) }`: the text it prints. -/
def printIfError : Option String → String
  | none => ""
  | some e => e

/-- `GetPlannables(url)`, statement by statement.

* Lines 104-107 and 109-112 print a non-nil error and go on.
* Line 114, `defer res.Body.Close()`, evaluates `res.Body` at once, so a nil
  `res` panics there.
* Lines 116-119 test `readErr` but print `err`, the error variable of line 109;
  calling `Error()` on it when it is nil panics.
* Lines 122-125 panic with the decode error.
* Line 128 parses the `Link` header, panicking if `ParseLinkHeader` does. -/
def GetPlannables (net : Net) (CANVAS_ACCESS_TOKEN url : String) : Outcome Response :=
  let (req, err) := net.NewRequest url
  let out := printIfError err
  match net.Do req with
  | Except.error p => ⟨out, Except.error p⟩
  | Except.ok (res, err) =>
    let out := out ++ printIfError err
    match res with
    | none => ⟨out, Except.error nilDereference⟩
    | some res =>
      let (body, readErr) := net.ReadAll res.Body
      match readErr, err with
      | some _, none => ⟨out, Except.error nilDereference⟩
      | readErr, err =>
        let out := out ++ (if readErr.isSome then printIfError err else "")
        match net.Unmarshal body with
        | Except.error e => ⟨out, Except.error e⟩
        | Except.ok plannables =>
          match ParseLinkHeader CANVAS_ACCESS_TOKEN res.Link with
          | Except.error p => ⟨out, Except.error p⟩
          | Except.ok links => ⟨out, Except.ok ⟨plannables, links⟩⟩

/-! ## `GetPlannablesByType` -/

/-- The `for _, plannable := range response.plannables` loop of
`GetPlannablesByType`, threading `typedPlannables`. -/
def appendTyped (plannableType : List String) : List Plannable → List Plannable → List Plannable
  | [], typedPlannables => typedPlannables
  | plannable :: rest, typedPlannables =>
    if plannableType.contains plannable.PlannableType then
      appendTyped plannableType rest (typedPlannables ++ [plannable])
    else
      appendTyped plannableType rest typedPlannables

/-- `GetPlannablesByType(url, plannableType)`.  The first argument stands for
the function `GetPlannables` as it answers at the moment of the call. -/
def GetPlannablesByType (getPlannables : String → Outcome Response) (url : String)
    (plannableType : List String) : Outcome Response :=
  let fetched := getPlannables url
  match fetched.result with
  | Except.error p => ⟨fetched.printed, Except.error p⟩
  | Except.ok response =>
    ⟨fetched.printed,
      Except.ok ⟨appendTyped plannableType response.plannables [], response.url_response⟩⟩

/-! ## `main` -/

/-- The array `queryParams` of `main`. -/
def queryParams : List Params :=
  [⟨"start_date", ""⟩, ⟨"filter", ""⟩, ⟨"order", "desc"⟩, ⟨"per_page", "10"⟩]

/-- Lines 76-80 of `main`: the URL of the first request. -/
def buildURL (CANVAS_ACCESS_TOKEN : String) : String :=
  let url := "https://uc.instructure.com/api/v1/planner/items?access_token="
  let url := url ++ CANVAS_ACCESS_TOKEN
  queryParams.foldl (fun url param => url ++ ("&" ++ param.key ++ "=" ++ param.value)) url

/-- The constant `numPlannables` of `main`. -/
def numPlannables : Nat := 25

/-- The slice `targetPlannableTypes` of `main`. -/
def targetPlannableTypes : List String := ["assignment", "quiz"]

/-- The variables of the pagination loop of `main`, the standard output so far,
and a log (not a program variable) of the calls made: for each call of
`GetPlannablesByType`, the URL it was given and what the call of `GetPlannables`
inside it answered. -/
structure LoopState where
  url : String
  plannables : List Plannable
  i : Nat
  stdout : String
  calls : List (String × Outcome Response)

/-- How a run stands: `main` returned; `log.Fatal` ended the process; a panic
ended it; or the loop iterations granted to the run are used up while the
condition `i < numPlannables` still holds. -/
inductive Status where
  | exited
  | fatal (msg : String)
  | panicked (msg : String)
  | running
  deriving DecidableEq

/-- The body of the loop (lines 88-93).  `fetch n` is `GetPlannables` as it
answers the call number `n` of the run, counting from 0. -/
def loopBody (fetch : Nat → String → Outcome Response) (st : LoopState) :
    Status × LoopState :=
  let getPlannables := fetch st.calls.length
  let calls := st.calls ++ [(st.url, getPlannables st.url)]
  let o := GetPlannablesByType getPlannables st.url targetPlannableTypes
  match o.result with
  | Except.error p =>
    (Status.panicked p, { st with stdout := st.stdout ++ o.printed, calls := calls })
  | Except.ok response =>
    let plannables := st.plannables ++ response.plannables
    (Status.running,
      { url := response.url_response.get "next"
        plannables := plannables
        i := plannables.length
        stdout := st.stdout ++ o.printed
        calls := calls })

/-- The loop `for i < numPlannables { ... }` run for at most `n` iterations. -/
def mainLoop (fetch : Nat → String → Outcome Response) : Nat → LoopState → Status × LoopState
  | 0, st => if st.i < numPlannables then (Status.running, st) else (Status.exited, st)
  | n + 1, st =>
    if st.i < numPlannables then
      match loopBody fetch st with
      | (Status.running, st') => mainLoop fetch n st'
      | stopped => stopped
    else (Status.exited, st)

/-- The slice expression `s[0:n]`.  Go admits it while `n` does not exceed the
capacity of `s`; the bound checked here is the length, which is the capacity of
a slice without spare room and the only bound under which every element of the
result is an element of `s`. -/
def slicePrefix {α : Type} (s : List α) (n : Nat) : Except String (List α) :=
  if n ≤ s.length then Except.ok (s.take n)
  else Except.error ("slice bounds out of range [:" ++ toString n ++ "] with capacity "
    ++ toString s.length)

/-- The loop of lines 97-99: one `fmt.Println` of the title per item. -/
def printTitles (plannables : List Plannable) (stdout : String) : String :=
  plannables.foldl (fun out plannable => out ++ (plannable.Plannable.Title ++ "\n")) stdout

/-- The state in which `main` enters the loop. -/
def initialState (url : String) : LoopState :=
  { url := url, plannables := [], i := 0, stdout := "", calls := [] }

/-- `main`, run with at most `n` loop iterations.  `loadErr` is the result of
`godotenv.Load()`, `CANVAS_ACCESS_TOKEN` the value of the environment variable
of that name, and `fetch` as in `loopBody`.  The result is how the program
stands and what it has written to standard output.  A failed load ends the
program in `log.Fatal`, which writes to standard error. -/
def mainWith (loadErr : Option String) (CANVAS_ACCESS_TOKEN : String)
    (fetch : Nat → String → Outcome Response) (n : Nat) : Status × String :=
  match loadErr with
  | some _ => (Status.fatal "Error loading .env file.", "")
  | none =>
    let url := buildURL CANVAS_ACCESS_TOKEN
    match mainLoop fetch n (initialState url) with
    | (Status.exited, st) =>
      match slicePrefix st.plannables numPlannables with
      | Except.error p => (Status.panicked p, st.stdout)
      | Except.ok plannables => (Status.exited, printTitles plannables st.stdout)
    | (status, st) => (status, st.stdout)

/-- The program: `main` with every call of `GetPlannables` answered by the
network as it is at that call. -/
def main (loadErr : Option String) (CANVAS_ACCESS_TOKEN : String) (world : Nat → Net)
    (n : Nat) : Status × String :=
  mainWith loadErr CANVAS_ACCESS_TOKEN
    (fun k url => GetPlannables (world k) CANVAS_ACCESS_TOKEN url) n

/-! ## Vocabulary of the statements -/

/-- The items of a fetched page that the type filter of `main` lets through. -/
def matching (page : Response) : List Plannable :=
  page.plannables.filter (fun p => decide (p.PlannableType ∈ targetPlannableTypes))

/-- The items that a logged call contributes: the matching items of the page
it fetched, none if it panicked. -/
def matchingOf (o : Outcome Response) : List Plannable :=
  match o.result with
  | Except.ok page => matching page
  | Except.error _ => []

/-- A world in which every call of `GetPlannables` succeeds silently: call
number `n` with URL `url` returns the page `pages n url`. -/
def okPages (pages : Nat → String → Response) : Nat → String → Outcome Response :=
  fun n url => ⟨"", Except.ok (pages n url)⟩

/-- In the world `okPages pages`, the URL of request number `n` of a run that
starts at `url0` and follows the `"next"` links. -/
def requestURL (pages : Nat → String → Response) (url0 : String) : Nat → String
  | 0 => url0
  | n + 1 => GoMap.get (pages n (requestURL pages url0 n)).url_response "next"

/-- The page that request number `n` of that run fetches. -/
def fetchedPage (pages : Nat → String → Response) (url0 : String) (n : Nat) : Response :=
  pages n (requestURL pages url0 n)

/-- The matching items of the first `k` pages of that run, in fetch order. -/
def gathered (pages : Nat → String → Response) (url0 : String) (k : Nat) : List Plannable :=
  (List.range k).flatMap (fun n => matching (fetchedPage pages url0 n))

/-- The loop state after `k` iterations of that run. -/
def stateAfter (pages : Nat → String → Response) (url0 : String) (k : Nat) : LoopState :=
  { url := requestURL pages url0 k
    plannables := gathered pages url0 k
    i := (gathered pages url0 k).length
    stdout := ""
    calls := (List.range k).map
      (fun n => (requestURL pages url0 n, okPages pages n (requestURL pages url0 n))) }

/-- A Link header in the form Canvas sends it: for each `(URL, NAME)` the part
`<URL>; rel="NAME"`, the parts separated by commas. -/
def linkPart (p : String × String) : String :=
  "<" ++ p.1 ++ ">; rel=\"" ++ p.2 ++ "\""

/-- The header made of the given parts. -/
def linkHeaderOf : List (String × String) → String
  | [] => ""
  | [p] => linkPart p
  | p :: q :: rest => linkPart p ++ "," ++ linkHeaderOf (q :: rest)

/-- The condition on the URL of a part: it holds no `','` and no `';'`, and
neither starts nor ends with `' '`, `'<'` or `'>'`. -/
def plainURL (u : String) : Prop :=
  ',' ∉ u.toList ∧ ';' ∉ u.toList ∧
    u.toList.head? ∉ [some ' ', some '<', some '>'] ∧
    u.toList.getLast? ∉ [some ' ', some '<', some '>']

instance (u : String) : Decidable (plainURL u) := by
  unfold plainURL; infer_instance

/-- The key that lines 148-151 of `ParseLinkHeader` compute for a part
`<URL>; rel="NAME"` with a plain URL: `urlAndRel[1]` is then the text of
` rel="NAME"` up to its first `';'`, which is trimmed three times. -/
def storedKey (name : String) : String :=
  let second := (strings.Split (" rel=\"" ++ name ++ "\"") ';').headD ""
  let rel := strings.Trim second " "
  let rel := strings.Trim rel "rel=\""
  strings.Trim rel "\""

/-- The entry that a part `<URL>; rel="NAME"` with a plain URL writes. -/
def storedEntry (T : String) (p : String × String) : String × String :=
  (storedKey p.2, p.1 ++ "&access_token=" ++ T)

/-- Two parts of a Canvas header: the next and the last page. -/
def twoParts : List (String × String) :=
  [("https://c/i?page=3", "next"), ("https://c/i?page=9", "last")]

/-- The network in which executing the request fails: `Do` returns a nil
response and the error `e`. -/
def doFails (e : String) : Net :=
  { NewRequest := fun url => (some url, none)
    Do := fun _ => Except.ok (none, some e)
    ReadAll := fun _ => ("[]", none)
    Unmarshal := fun _ => Except.ok [] }

/-- The network in which the request succeeds and reading the body fails with
the error `e`. -/
def readFails (e : String) : Net :=
  { NewRequest := fun url => (some url, none)
    Do := fun _ => Except.ok (some ⟨0, ""⟩, none)
    ReadAll := fun _ => ("", some e)
    Unmarshal := fun _ => Except.ok [] }

/-- A planner item with the given type and title, everything else zero. -/
def sampleItem (plannableType title : String) : Plannable :=
  { ContextType := "", CourseID := 0, PlannableID := 0
    PlannerOverride :=
      { ID := 0, PlannableType := "", PlannableID := 0, UserID := 0, WorkflowState := ""
        MarkedComplete := false, DeletedAt := ⟨0⟩, CreatedAt := ⟨0⟩, UpdatedAt := ⟨0⟩
        Dismissed := false, AssignmentID := 0 }
    PlannableType := plannableType, NewActivity := false, Submissions := none
    PlannableDate := ⟨0⟩
    Plannable :=
      { ID := 0, Title := title, UnreadCount := 0, ReadState := ""
        CreatedAt := ⟨0⟩, UpdatedAt := ⟨0⟩ }
    HTMLURL := "", ContextName := "", ContextImage := "" }

/-- The log `calls` is answered by `fetch`: entry `j` holds what call number `j`
of `GetPlannables` returns for the URL of the entry. -/
def Answered (fetch : Nat → String → Outcome Response)
    (calls : List (String × Outcome Response)) : Prop :=
  ∀ j c, calls[j]? = some c → c.2 = fetch j c.1

/-- The URLs of the log `calls` are linked: the first one is `url0`, and each
later one is the `"next"` entry of the link map that the call before it
returned. -/
def Linked (url0 : String) (calls : List (String × Outcome Response)) : Prop :=
  (∀ c, calls[0]? = some c → c.1 = url0) ∧
  ∀ j c, calls[j + 1]? = some c →
    ∃ c0 r, calls[j]? = some c0 ∧ c0.2.result = Except.ok r ∧
      c.1 = GoMap.get r.url_response "next"

/-- The loop variables agree with the log. -/
def Consistent (fetch : Nat → String → Outcome Response) (url0 : String) (st : LoopState) :
    Prop :=
  Answered fetch st.calls ∧ Linked url0 st.calls ∧ st.i = st.plannables.length ∧
    st.plannables = st.calls.flatMap (fun c => matchingOf c.2) ∧
    st.stdout = String.join (st.calls.map (fun c => c.2.printed))

/-- The state is consistent and `url` is the URL that the next call is due:
`url0` before the first call, afterwards the `"next"` entry returned by the
last call. -/
def Ready (fetch : Nat → String → Outcome Response) (url0 : String) (st : LoopState) : Prop :=
  Consistent fetch url0 st ∧ (st.calls = [] → st.url = url0) ∧
    ∀ j c0, st.calls[j]? = some c0 → j + 1 = st.calls.length →
      ∃ r, c0.2.result = Except.ok r ∧ st.url = GoMap.get r.url_response "next"

/-- A world in which every page holds ten assignments and one discussion, and
names a next page. -/
def tenPerPage : Nat → String → Response :=
  fun _ url =>
    ⟨sampleItem "discussion_topic" "D" :: List.replicate 10 (sampleItem "assignment" "A"),
      [("current", url), ("next", url ++ "+")]⟩

/-- A world in which every page is empty and carries no links. -/
def emptyPages : Nat → String → Response :=
  fun _ _ => ⟨[], []⟩

/-- A page of four items, three of them of a type `main` asks for. -/
def mixedPage : Response :=
  ⟨[sampleItem "quiz" "Q1", sampleItem "discussion_topic" "D", sampleItem "quiz" "Q1",
    sampleItem "assignment" "A"], [("next", "u2")]⟩

/-! ## The type filter -/

theorem appendTyped_eq (plannableType : List String) (page typed : List Plannable) :
    appendTyped plannableType page typed
      = typed ++ page.filter (fun p => decide (p.PlannableType ∈ plannableType)) := by
  induction page generalizing typed with
  | nil => simp [appendTyped]
  | cons p rest ih =>
    by_cases h : p.PlannableType ∈ plannableType
    · simp [appendTyped, ih, h]
    · simp [appendTyped, ih, h]

/-- C3: when the call of `GetPlannables` returns a page, `GetPlannablesByType`
returns exactly the items of the page whose `PlannableType` is a member of the
allow-list (the `List.filter` of the page, so order and multiplicity are kept),
together with the link map of the fetched response, unchanged; and it prints
nothing of its own. -/
theorem GetPlannablesByType_filter (getPlannables : String → Outcome Response) (url : String)
    (plannableType : List String) (response : Response)
    (h : (getPlannables url).result = Except.ok response) :
    GetPlannablesByType getPlannables url plannableType
      = ⟨(getPlannables url).printed,
          Except.ok ⟨response.plannables.filter (fun p => decide (p.PlannableType ∈ plannableType)),
            response.url_response⟩⟩ := by
  simp [GetPlannablesByType, h, appendTyped_eq]

theorem GetPlannablesByType_filter_witness :
    (okPages (fun _ _ => mixedPage) 0 "u1").result = Except.ok mixedPage
    ∧ GetPlannablesByType (okPages (fun _ _ => mixedPage) 0) "u1" ["assignment", "quiz"]
      = ⟨"", Except.ok ⟨[sampleItem "quiz" "Q1", sampleItem "quiz" "Q1",
          sampleItem "assignment" "A"], [("next", "u2")]⟩⟩ :=
  ⟨rfl, GetPlannablesByType_filter (okPages (fun _ _ => mixedPage) 0) "u1"
    ["assignment", "quiz"] mixedPage rfl⟩

/-! ## One iteration of the pagination loop -/

theorem getElem?_snoc {α : Type} (l : List α) (a c : α) (j : Nat) :
    (l ++ [a])[j]? = some c ↔ l[j]? = some c ∨ (j = l.length ∧ a = c) := by
  rcases Nat.lt_trichotomy j l.length with h | h | h
  · rw [List.getElem?_append_left h]
    constructor
    · intro hc; exact Or.inl hc
    · rintro (hc | ⟨hj, _⟩)
      · exact hc
      · omega
  · subst h
    simp
  · rw [List.getElem?_append_right (Nat.le_of_lt h)]
    have h1 : l[j]? = none := List.getElem?_eq_none (Nat.le_of_lt h)
    have h2 : ([a] : List α)[j - l.length]? = none :=
      List.getElem?_eq_none (by simp; omega)
    rw [h1, h2]
    constructor
    · intro hc; cases hc
    · rintro (hc | ⟨hj, _⟩)
      · cases hc
      · omega

theorem loopBody_ok (fetch : Nat → String → Outcome Response) (st : LoopState) (page : Response)
    (h : (fetch st.calls.length st.url).result = Except.ok page) :
    loopBody fetch st = (Status.running,
      { url := GoMap.get page.url_response "next"
        plannables := st.plannables ++ matching page
        i := (st.plannables ++ matching page).length
        stdout := st.stdout ++ (fetch st.calls.length st.url).printed
        calls := st.calls ++ [(st.url, fetch st.calls.length st.url)] }) := by
  simp [loopBody, GetPlannablesByType, h, appendTyped_eq, matching]

theorem loopBody_panic (fetch : Nat → String → Outcome Response) (st : LoopState) (p : String)
    (h : (fetch st.calls.length st.url).result = Except.error p) :
    loopBody fetch st = (Status.panicked p,
      { st with
        stdout := st.stdout ++ (fetch st.calls.length st.url).printed
        calls := st.calls ++ [(st.url, fetch st.calls.length st.url)] }) := by
  simp [loopBody, GetPlannablesByType, h]

theorem foldl_append_eq (acc : String) (l : List String) :
    l.foldl (fun r s => r ++ s) acc = acc ++ String.join l := by
  induction l generalizing acc with
  | nil => simp [String.join]
  | cons a l ih =>
    simp only [List.foldl_cons, String.join]
    rw [ih (acc ++ a), ih ("" ++ a), String.append_assoc, String.empty_append]

theorem join_snoc (l : List String) (a : String) :
    String.join (l ++ [a]) = String.join l ++ a := by
  simp [String.join, List.foldl_append]

theorem ready_initialState (fetch : Nat → String → Outcome Response) (url0 : String) :
    Ready fetch url0 (initialState url0) := by
  refine ⟨⟨?_, ⟨?_, ?_⟩, rfl, rfl, rfl⟩, fun _ => rfl, ?_⟩
  · intro j c h; simp [initialState] at h
  · intro c h; simp [initialState] at h
  · intro j c h; simp [initialState] at h
  · intro j c h; simp [initialState] at h

theorem answered_snoc (fetch : Nat → String → Outcome Response)
    (calls : List (String × Outcome Response)) (url : String) (h : Answered fetch calls) :
    Answered fetch (calls ++ [(url, fetch calls.length url)]) := by
  intro j c hc
  rcases (getElem?_snoc _ _ _ _).1 hc with h1 | ⟨hj, hc1⟩
  · exact h j c h1
  · subst hj; subst hc1; rfl

theorem linked_snoc (url0 url : String) (o : Outcome Response)
    (calls : List (String × Outcome Response)) (h : Linked url0 calls)
    (h0 : calls = [] → url = url0)
    (hlast : ∀ j c0, calls[j]? = some c0 → j + 1 = calls.length →
      ∃ r, c0.2.result = Except.ok r ∧ url = GoMap.get r.url_response "next") :
    Linked url0 (calls ++ [(url, o)]) := by
  refine ⟨?_, ?_⟩
  · intro c hc
    rcases (getElem?_snoc _ _ _ _).1 hc with h1 | ⟨hj, hc1⟩
    · exact h.1 c h1
    · subst hc1
      exact h0 (List.length_eq_zero.1 hj.symm)
  · intro j c hc
    rcases (getElem?_snoc _ _ _ _).1 hc with h1 | ⟨hj, hc1⟩
    · obtain ⟨c0, r, hc0, hr, hu⟩ := h.2 j c h1
      exact ⟨c0, r, (getElem?_snoc _ _ _ _).2 (Or.inl hc0), hr, hu⟩
    · subst hc1
      have hlt : j < calls.length := by omega
      obtain ⟨r, hr, hu⟩ := hlast j calls[j] (List.getElem?_eq_getElem hlt) hj
      exact ⟨calls[j], r, (getElem?_snoc _ _ _ _).2 (Or.inl (List.getElem?_eq_getElem hlt)),
        hr, hu⟩

theorem matchingOf_ok (o : Outcome Response) (page : Response)
    (h : o.result = Except.ok page) : matchingOf o = matching page := by
  simp [matchingOf, h]

theorem matchingOf_error (o : Outcome Response) (p : String)
    (h : o.result = Except.error p) : matchingOf o = [] := by
  simp [matchingOf, h]

/-- One iteration keeps the log consistent, never ends the loop by itself,
and when it succeeds leaves the state ready for the next iteration. -/
theorem loopBody_ready (fetch : Nat → String → Outcome Response) (url0 : String)
    (st : LoopState) (h : Ready fetch url0 st) :
    Consistent fetch url0 (loopBody fetch st).2 ∧
      ((loopBody fetch st).1 = Status.running → Ready fetch url0 (loopBody fetch st).2) ∧
      (loopBody fetch st).2.calls.length = st.calls.length + 1 := by
  obtain ⟨⟨hans, hlink, hi, hpl, hout⟩, h0, hlast⟩ := h
  have hans1 := answered_snoc fetch st.calls st.url hans
  have hlink1 := linked_snoc url0 st.url (fetch st.calls.length st.url) st.calls hlink h0 hlast
  cases hres : (fetch st.calls.length st.url).result with
  | error p =>
    rw [loopBody_panic fetch st p hres]
    refine ⟨⟨hans1, hlink1, hi, ?_, ?_⟩, ?_, by simp⟩
    · simp [List.flatMap_append, matchingOf_error _ p hres, ← hpl]
    · simp only [List.map_append, List.map_cons, List.map_nil, join_snoc, ← hout]
    · intro hrun; cases hrun
  | ok page =>
    rw [loopBody_ok fetch st page hres]
    have hcons : Consistent fetch url0
        { url := GoMap.get page.url_response "next"
          plannables := st.plannables ++ matching page
          i := (st.plannables ++ matching page).length
          stdout := st.stdout ++ (fetch st.calls.length st.url).printed
          calls := st.calls ++ [(st.url, fetch st.calls.length st.url)] } := by
      refine ⟨hans1, hlink1, rfl, ?_, ?_⟩
      · simp [List.flatMap_append, matchingOf_ok _ page hres, ← hpl]
      · simp only [List.map_append, List.map_cons, List.map_nil, join_snoc, ← hout]
    refine ⟨hcons, fun _ => ⟨hcons, ?_, ?_⟩, by simp⟩
    · intro hnil; simp at hnil
    · intro j c0 hc hj
      simp only [List.length_append, List.length_singleton] at hj
      rcases (getElem?_snoc _ _ _ _).1 hc with h1 | ⟨hj1, hc1⟩
      · have := (List.getElem?_eq_some.1 h1).1
        omega
      · subst hc1
        exact ⟨page, hres, rfl⟩

/-- The log of a run of the loop is consistent, however the run stands. -/
theorem mainLoop_consistent (fetch : Nat → String → Outcome Response) (url0 : String)
    (n : Nat) (st : LoopState) (h : Ready fetch url0 st) :
    Consistent fetch url0 (mainLoop fetch n st).2 := by
  induction n generalizing st with
  | zero =>
    unfold mainLoop
    split <;> exact h.1
  | succ n ih =>
    unfold mainLoop
    split
    · obtain ⟨hc, hr, _⟩ := loopBody_ready fetch url0 st h
      split
      · rename_i st1 heq
        rw [heq] at hr
        exact ih st1 (hr rfl)
      · exact hc
    · exact h.1

/-! ## Runs in which every fetch returns a page -/

theorem gathered_succ (pages : Nat → String → Response) (url0 : String) (k : Nat) :
    gathered pages url0 (k + 1)
      = gathered pages url0 k ++ matching (fetchedPage pages url0 k) := by
  simp [gathered, List.range_succ, List.flatMap_append]

theorem gathered_length_mono (pages : Nat → String → Response) (url0 : String) (j k : Nat)
    (h : j ≤ k) : (gathered pages url0 j).length ≤ (gathered pages url0 k).length := by
  induction k with
  | zero =>
    have : j = 0 := by omega
    subst this
    exact Nat.le_refl _
  | succ k ih =>
    rcases Nat.eq_or_lt_of_le h with h1 | h1
    · subst h1
      exact Nat.le_refl _
    · have := ih (by omega)
      rw [gathered_succ, List.length_append]
      omega

theorem stateAfter_zero (pages : Nat → String → Response) (url0 : String) :
    stateAfter pages url0 0 = initialState url0 := by
  simp [stateAfter, initialState, gathered, requestURL]

theorem stateAfter_calls_length (pages : Nat → String → Response) (url0 : String) (k : Nat) :
    (stateAfter pages url0 k).calls.length = k := by
  simp [stateAfter]

theorem loopBody_stateAfter (pages : Nat → String → Response) (url0 : String) (k : Nat) :
    loopBody (okPages pages) (stateAfter pages url0 k)
      = (Status.running, stateAfter pages url0 (k + 1)) := by
  have hres : (okPages pages (stateAfter pages url0 k).calls.length
      (stateAfter pages url0 k).url).result = Except.ok (fetchedPage pages url0 k) := by
    simp [stateAfter, okPages, fetchedPage]
  rw [loopBody_ok (okPages pages) (stateAfter pages url0 k) (fetchedPage pages url0 k) hres]
  simp [stateAfter, gathered_succ, List.range_succ, requestURL, fetchedPage, okPages]

/-- While fewer than `numPlannables` items are gathered the loop keeps
fetching: after `n` more granted iterations it is `n` pages further. -/
theorem mainLoop_running (pages : Nat → String → Response) (url0 : String) (n j : Nat)
    (h : ∀ m, j ≤ m → m ≤ j + n → (gathered pages url0 m).length < numPlannables) :
    mainLoop (okPages pages) n (stateAfter pages url0 j)
      = (Status.running, stateAfter pages url0 (j + n)) := by
  induction n generalizing j with
  | zero =>
    have hj : (stateAfter pages url0 j).i < numPlannables := h j (Nat.le_refl _) (by omega)
    simp [mainLoop, hj]
  | succ n ih =>
    have hj : (stateAfter pages url0 j).i < numPlannables := h j (Nat.le_refl _) (by omega)
    have hrec := ih (j + 1) (fun m h1 h2 => h m (by omega) (by omega))
    rw [mainLoop, if_pos hj, loopBody_stateAfter]
    simp only [hrec]
    congr 2
    omega

/-- Once `numPlannables` items are gathered the loop exits without fetching. -/
theorem mainLoop_done (pages : Nat → String → Response) (url0 : String) (n k : Nat)
    (h : numPlannables ≤ (gathered pages url0 k).length) :
    mainLoop (okPages pages) n (stateAfter pages url0 k)
      = (Status.exited, stateAfter pages url0 k) := by
  have hk : ¬ (stateAfter pages url0 k).i < numPlannables := by
    simp only [stateAfter]; omega
  cases n with
  | zero => simp [mainLoop, hk]
  | succ n => simp [mainLoop, hk]

theorem mainLoop_add (fetch : Nat → String → Outcome Response) (a b : Nat) (st : LoopState)
    (st1 : LoopState) (h : mainLoop fetch a st = (Status.running, st1)) :
    mainLoop fetch (a + b) st = mainLoop fetch b st1 := by
  induction a generalizing st with
  | zero =>
    simp only [mainLoop] at h
    split at h
    · cases h; simp
    · cases h
  | succ a ih =>
    rw [show a + 1 + b = (a + b) + 1 by omega]
    rw [mainLoop] at h ⊢
    by_cases hlt : st.i < numPlannables
    · rw [if_pos hlt] at h ⊢
      cases hb : loopBody fetch st with
      | mk status st2 =>
        rw [hb] at h
        cases status with
        | running => exact ih st2 h
        | exited => simp at h
        | fatal msg => simp at h
        | panicked msg => simp at h
    · rw [if_neg hlt] at h
      cases h

theorem mainLoop_stateAfter (pages : Nat → String → Response) (url0 : String) (n : Nat)
    (h : ∀ m, m ≤ n → (gathered pages url0 m).length < numPlannables) :
    (mainLoop (okPages pages) (n + 1) (initialState url0)).2 = stateAfter pages url0 (n + 1) := by
  have hrun := mainLoop_running pages url0 n 0 (fun m _ h2 => h m (by omega))
  rw [stateAfter_zero, Nat.zero_add] at hrun
  rw [mainLoop_add (okPages pages) n 1 _ _ hrun]
  have hn : (stateAfter pages url0 n).i < numPlannables := h n (Nat.le_refl _)
  rw [mainLoop, if_pos hn, loopBody_stateAfter]
  simp only [mainLoop]
  split <;> rfl

/-! ## Output -/

theorem printTitles_eq (plannables : List Plannable) (stdout : String) :
    printTitles plannables stdout
      = stdout ++ String.join (plannables.map (fun p => p.Plannable.Title ++ "\n")) := by
  rw [← foldl_append_eq, List.foldl_map]
  rfl

theorem loopBody_status (fetch : Nat → String → Outcome Response) (st : LoopState) :
    (loopBody fetch st).1 ≠ Status.exited := by
  cases hres : (fetch st.calls.length st.url).result with
  | error p => rw [loopBody_panic fetch st p hres]; simp
  | ok page => rw [loopBody_ok fetch st page hres]; simp

theorem mainLoop_exited (fetch : Nat → String → Outcome Response) (n : Nat) (st : LoopState)
    (h : (mainLoop fetch n st).1 = Status.exited) :
    numPlannables ≤ (mainLoop fetch n st).2.i := by
  induction n generalizing st with
  | zero =>
    rw [mainLoop] at h ⊢
    by_cases hlt : st.i < numPlannables
    · rw [if_pos hlt] at h; cases h
    · rw [if_neg hlt]; exact Nat.le_of_not_lt hlt
  | succ n ih =>
    rw [mainLoop] at h ⊢
    by_cases hlt : st.i < numPlannables
    · rw [if_pos hlt] at h ⊢
      have hne := loopBody_status fetch st
      cases hb : loopBody fetch st with
      | mk status st2 =>
        rw [hb] at h hne
        cases status with
        | running => exact ih st2 h
        | exited => exact absurd rfl hne
        | fatal msg => simp at h
        | panicked msg => simp at h
    · rw [if_neg hlt]; exact Nat.le_of_not_lt hlt

theorem slicePrefix_ok {α : Type} (s : List α) (n : Nat) (h : n ≤ s.length) :
    slicePrefix s n = Except.ok (s.take n) := by
  simp [slicePrefix, h]

theorem GetPlannablesByType_result (getPlannables : String → Outcome Response) (url : String)
    (page : Response) (h : (getPlannables url).result = Except.ok page) :
    (GetPlannablesByType getPlannables url targetPlannableTypes).result
      = Except.ok ⟨matching page, page.url_response⟩ := by
  simp [GetPlannablesByType, h, appendTyped_eq, matching]

/-! ## The pagination loop -/

/-- C4: in a run whose fetches return the pages `fetchedPage 0, 1, ...`, let `k`
be the least number of pages whose matching items total at least
`numPlannables` (25).  Then `k ≥ 1`; granted fewer than `k` iterations the loop
is still running, one page fetched per iteration; granted `k` or more it exits
after exactly `k` fetches, and at exit the accumulated list is the
concatenation, in fetch order, of the filtered pages `0 .. k-1`. -/
theorem mainLoop_fetches_least (pages : Nat → String → Response) (url0 : String) (k : Nat)
    (hk : numPlannables ≤ (gathered pages url0 k).length)
    (hmin : ∀ j, j < k → (gathered pages url0 j).length < numPlannables) :
    numPlannables = 25 ∧ 1 ≤ k ∧
    (∀ n, n < k →
      mainLoop (okPages pages) n (initialState url0) = (Status.running, stateAfter pages url0 n)) ∧
    (∀ n, k ≤ n →
      mainLoop (okPages pages) n (initialState url0) = (Status.exited, stateAfter pages url0 k)) ∧
    (stateAfter pages url0 k).calls.length = k ∧
    (stateAfter pages url0 k).plannables
      = (List.range k).flatMap (fun j => matching (fetchedPage pages url0 j)) := by
  have hk1 : 1 ≤ k := by
    rcases Nat.eq_zero_or_pos k with h0 | h0
    · subst h0
      simp [gathered, numPlannables] at hk
    · exact h0
  have hrun : ∀ n, n < k →
      mainLoop (okPages pages) n (initialState url0)
        = (Status.running, stateAfter pages url0 n) := by
    intro n hn
    have h := mainLoop_running pages url0 n 0 (fun m _ h2 => hmin m (by omega))
    rw [stateAfter_zero, Nat.zero_add] at h
    exact h
  refine ⟨rfl, hk1, hrun, ?_, stateAfter_calls_length pages url0 k, rfl⟩
  intro n hn
  obtain ⟨b, rfl⟩ : ∃ b, n = (k - 1) + (b + 1) := ⟨n - k, by omega⟩
  rw [mainLoop_add (okPages pages) (k - 1) (b + 1) _ _ (hrun (k - 1) (by omega))]
  have hlt : (stateAfter pages url0 (k - 1)).i < numPlannables := hmin (k - 1) (by omega)
  rw [mainLoop, if_pos hlt, loopBody_stateAfter]
  have hkk : k - 1 + 1 = k := by omega
  simp only [hkk]
  exact mainLoop_done pages url0 b k hk

theorem mainLoop_fetches_least_witness :
    numPlannables ≤ (gathered tenPerPage "u" 3).length
    ∧ (∀ j, j < 3 → (gathered tenPerPage "u" j).length < numPlannables)
    ∧ mainLoop (okPages tenPerPage) 7 (initialState "u")
        = (Status.exited, stateAfter tenPerPage "u" 3)
    ∧ (stateAfter tenPerPage "u" 3).plannables.length = 30 :=
  ⟨by decide, by decide,
    (mainLoop_fetches_least tenPerPage "u" 3 (by decide) (by decide)).2.2.2.1 7 (by decide),
    by decide⟩

/-- C5: whenever the pagination loop of `main` exits, the accumulated list
holds at least `numPlannables` items, so the slice `plannables[0:numPlannables]`
is in range; the truncated list has exactly 25 items, which are the first 25
matching items of the logged fetches in fetch order; and `main` returns with
standard output holding whatever the fetches printed (nothing, unless a fetch
reported an error and still returned a page) followed by exactly one line per
item of the truncated list, the title followed by a newline. -/
theorem main_truncates_and_prints (CANVAS_ACCESS_TOKEN : String)
    (fetch : Nat → String → Outcome Response) (n : Nat)
    (h : (mainLoop fetch n (initialState (buildURL CANVAS_ACCESS_TOKEN))).1 = Status.exited) :
    numPlannables ≤
        (mainLoop fetch n (initialState (buildURL CANVAS_ACCESS_TOKEN))).2.plannables.length ∧
    slicePrefix (mainLoop fetch n (initialState (buildURL CANVAS_ACCESS_TOKEN))).2.plannables
        numPlannables
      = Except.ok ((mainLoop fetch n
          (initialState (buildURL CANVAS_ACCESS_TOKEN))).2.plannables.take numPlannables) ∧
    ((mainLoop fetch n
        (initialState (buildURL CANVAS_ACCESS_TOKEN))).2.plannables.take numPlannables).length
      = 25 ∧
    (mainLoop fetch n (initialState (buildURL CANVAS_ACCESS_TOKEN))).2.plannables.take numPlannables
      = (((mainLoop fetch n (initialState (buildURL CANVAS_ACCESS_TOKEN))).2.calls.flatMap
          (fun c => matchingOf c.2)).take 25) ∧
    mainWith none CANVAS_ACCESS_TOKEN fetch n
      = (Status.exited,
          String.join
              ((mainLoop fetch n (initialState (buildURL CANVAS_ACCESS_TOKEN))).2.calls.map
                (fun c => c.2.printed))
            ++ String.join
              (((mainLoop fetch n
                  (initialState (buildURL CANVAS_ACCESS_TOKEN))).2.plannables.take
                    numPlannables).map
                (fun p => p.Plannable.Title ++ "\n"))) := by
  have hcons := mainLoop_consistent fetch (buildURL CANVAS_ACCESS_TOKEN) n _
    (ready_initialState fetch (buildURL CANVAS_ACCESS_TOKEN))
  have hex := mainLoop_exited fetch n _ h
  generalize hr : mainLoop fetch n (initialState (buildURL CANVAS_ACCESS_TOKEN)) = r at *
  obtain ⟨status, st⟩ := r
  obtain ⟨_, _, hi, hpl, hout⟩ := hcons
  simp only at h hex hi hpl hout ⊢
  subst h
  have hlen : numPlannables ≤ st.plannables.length := by omega
  refine ⟨hlen, slicePrefix_ok _ _ hlen, ?_, ?_, ?_⟩
  · rw [List.length_take]
    have : numPlannables = 25 := rfl
    omega
  · rw [← hpl]; rfl
  · simp only [mainWith, hr, slicePrefix_ok _ _ hlen, printTitles_eq, hout]

theorem main_truncates_and_prints_witness :
    (mainLoop (okPages tenPerPage) 5 (initialState (buildURL "T"))).1 = Status.exited
    ∧ mainWith none "T" (okPages tenPerPage) 5
      = (Status.exited, String.join (List.replicate 25 "A\n")) :=
  ⟨by decide,
    (main_truncates_and_prints "T" (okPages tenPerPage) 5 (by decide)).2.2.2.2.trans
      (by decide)⟩

/-- C6: in every run of `main`, however many iterations it is granted and
however it stands, the first call of `GetPlannablesByType` is given the URL
built by `main`, and each later call is given exactly the value under `"next"`
of the link map in the response that the call before it returned. -/
theorem main_follows_next (CANVAS_ACCESS_TOKEN : String)
    (fetch : Nat → String → Outcome Response) (n : Nat) :
    (∀ c, (mainLoop fetch n (initialState (buildURL CANVAS_ACCESS_TOKEN))).2.calls[0]? = some c →
      c.1 = buildURL CANVAS_ACCESS_TOKEN) ∧
    ∀ j c,
      (mainLoop fetch n (initialState (buildURL CANVAS_ACCESS_TOKEN))).2.calls[j + 1]? = some c →
      ∃ c0 response,
        (mainLoop fetch n (initialState (buildURL CANVAS_ACCESS_TOKEN))).2.calls[j]? = some c0 ∧
        (GetPlannablesByType (fetch j) c0.1 targetPlannableTypes).result = Except.ok response ∧
        c.1 = GoMap.get response.url_response "next" := by
  obtain ⟨hans, hlink, _, _, _⟩ := mainLoop_consistent fetch (buildURL CANVAS_ACCESS_TOKEN) n _
    (ready_initialState fetch (buildURL CANVAS_ACCESS_TOKEN))
  refine ⟨hlink.1, ?_⟩
  intro j c hc
  obtain ⟨c0, r, hc0, hr, hu⟩ := hlink.2 j c hc
  refine ⟨c0, ⟨matching r, r.url_response⟩, hc0, ?_, hu⟩
  rw [hans j c0 hc0] at hr
  exact GetPlannablesByType_result (fetch j) c0.1 r hr

/-- C10: the loop has no exit other than reaching the target count.  In a run
whose fetches return pages: if fewer than `numPlannables` matching items are
gathered after fetch number `k`, the loop performs fetch number `k + 1`, its URL
being the `"next"` entry of the link map of page `k`, which is the empty string
when the map has no such entry; and if the gathered items never reach
`numPlannables`, then for every number `n` of granted iterations the loop has
made `n` fetches and is still running. -/
theorem mainLoop_no_other_exit (pages : Nat → String → Response) (url0 : String) :
    (∀ k, (gathered pages url0 (k + 1)).length < numPlannables →
      (mainLoop (okPages pages) (k + 2) (initialState url0)).2.calls[k + 1]?
          = some (GoMap.get (fetchedPage pages url0 k).url_response "next",
              okPages pages (k + 1)
                (GoMap.get (fetchedPage pages url0 k).url_response "next")) ∧
      (GoMap.lookup (fetchedPage pages url0 k).url_response "next" = none →
        GoMap.get (fetchedPage pages url0 k).url_response "next" = "")) ∧
    ((∀ k, (gathered pages url0 k).length < numPlannables) →
      ∀ n, (mainLoop (okPages pages) n (initialState url0)).1 = Status.running ∧
        (mainLoop (okPages pages) n (initialState url0)).2.calls.length = n) := by
  constructor
  · intro k hk
    constructor
    · have hall : ∀ m, m ≤ k + 1 → (gathered pages url0 m).length < numPlannables :=
        fun m hm => Nat.lt_of_le_of_lt (gathered_length_mono pages url0 m (k + 1) hm) hk
      rw [mainLoop_stateAfter pages url0 (k + 1) hall]
      simp only [stateAfter, List.getElem?_map, fetchedPage]
      rw [List.getElem?_range (by omega)]
      rfl
    · intro hnone
      simp [GoMap.get, hnone]
  · intro h n
    have hrun := mainLoop_running pages url0 n 0 (fun m _ _ => h m)
    rw [stateAfter_zero, Nat.zero_add] at hrun
    rw [hrun]
    exact ⟨rfl, stateAfter_calls_length pages url0 n⟩

theorem gathered_emptyPages (k : Nat) : (gathered emptyPages "u" k).length < numPlannables := by
  have h : gathered emptyPages "u" k = [] := by
    simp [gathered, matching, fetchedPage, emptyPages]
  rw [h]
  decide

theorem mainLoop_no_other_exit_witness :
    (mainLoop (okPages emptyPages) 4 (initialState "u")).2.calls[3]?
        = some ("", okPages emptyPages 3 "")
    ∧ (mainLoop (okPages emptyPages) 100 (initialState "u")).1 = Status.running
    ∧ (mainLoop (okPages emptyPages) 100 (initialState "u")).2.calls.length = 100 :=
  ⟨((mainLoop_no_other_exit emptyPages "u").1 2 (gathered_emptyPages 3)).1,
    (mainLoop_no_other_exit emptyPages "u").2 gathered_emptyPages 100⟩

/-! ## The first URL -/

theorem loopBody_calls_length (fetch : Nat → String → Outcome Response) (st : LoopState) :
    (loopBody fetch st).2.calls.length = st.calls.length + 1 := by
  cases hres : (fetch st.calls.length st.url).result with
  | error p => rw [loopBody_panic fetch st p hres]; simp
  | ok page => rw [loopBody_ok fetch st page hres]; simp

theorem mainLoop_calls_length_le (fetch : Nat → String → Outcome Response) (n : Nat)
    (st : LoopState) : st.calls.length ≤ (mainLoop fetch n st).2.calls.length := by
  induction n generalizing st with
  | zero =>
    rw [mainLoop]
    split <;> exact Nat.le_refl _
  | succ n ih =>
    rw [mainLoop]
    by_cases hlt : st.i < numPlannables
    · rw [if_pos hlt]
      have hlen := loopBody_calls_length fetch st
      cases hb : loopBody fetch st with
      | mk status st2 =>
        rw [hb] at hlen
        simp only at hlen
        cases status with
        | running =>
          have := ih st2
          simp only
          omega
        | exited => simp only; omega
        | fatal msg => simp only; omega
        | panicked msg => simp only; omega
    · rw [if_neg hlt]

theorem mainLoop_first_call (fetch : Nat → String → Outcome Response) (n : Nat) (url0 : String) :
    ((mainLoop fetch (n + 1) (initialState url0)).2.calls.head?).map Prod.fst = some url0 := by
  have hlink := (mainLoop_consistent fetch url0 (n + 1) _ (ready_initialState fetch url0)).2.1
  have hlen : 1 ≤ (mainLoop fetch (n + 1) (initialState url0)).2.calls.length := by
    rw [mainLoop]
    have hlt : (initialState url0).i < numPlannables := by
      simp [initialState, numPlannables]
    rw [if_pos hlt]
    have hlen := loopBody_calls_length fetch (initialState url0)
    cases hb : loopBody fetch (initialState url0) with
    | mk status st2 =>
      rw [hb] at hlen
      simp only at hlen
      cases status with
      | running =>
        have := mainLoop_calls_length_le fetch n st2
        simp only
        omega
      | exited => simp only; omega
      | fatal msg => simp only; omega
      | panicked msg => simp only; omega
  generalize (mainLoop fetch (n + 1) (initialState url0)).2.calls = calls at hlink hlen
  cases calls with
  | nil => simp at hlen
  | cons c rest =>
    have := hlink.1 c (by simp)
    simp [this]

/-- C8: for every credential `T` the URL with which `main` enters the loop
is the planner endpoint, the credential, and then the four query parameters
`start_date`, `filter`, `order`, `per_page` in that order, each rendered as
`"&" ++ key ++ "=" ++ value`; and it is the URL of the first request of every
run that makes one. -/
theorem buildURL_eq (T : String) :
    buildURL T = "https://uc.instructure.com/api/v1/planner/items?access_token=" ++ T
      ++ "&start_date=&filter=&order=desc&per_page=10" ∧
    (initialState (buildURL T)).url
      = "https://uc.instructure.com/api/v1/planner/items?access_token=" ++ T
        ++ ("&" ++ "start_date" ++ "=" ++ "") ++ ("&" ++ "filter" ++ "=" ++ "")
        ++ ("&" ++ "order" ++ "=" ++ "desc") ++ ("&" ++ "per_page" ++ "=" ++ "10") ∧
    ∀ (fetch : Nat → String → Outcome Response) (n : Nat),
      ((mainLoop fetch (n + 1) (initialState (buildURL T))).2.calls.head?).map Prod.fst
        = some ("https://uc.instructure.com/api/v1/planner/items?access_token=" ++ T
            ++ "&start_date=&filter=&order=desc&per_page=10") := by
  have h1 : buildURL T = "https://uc.instructure.com/api/v1/planner/items?access_token=" ++ T
      ++ "&start_date=&filter=&order=desc&per_page=10" := by
    simp only [buildURL, queryParams, List.foldl, String.append_assoc]
    rfl
  refine ⟨h1, rfl, ?_⟩
  intro fetch n
  rw [mainLoop_first_call fetch n (buildURL T), h1]

/-! ## Errors in `GetPlannables` -/

/-- C7 (the code departs from it): when `Do` fails with a nil response,
`GetPlannables` prints the error and then panics on `res.Body` in the `defer`
statement; when reading the body fails after a successful `Do`, it panics on
`err.Error()` without printing anything.  Neither run reaches the JSON
decode. -/
theorem GetPlannables_panics (CANVAS_ACCESS_TOKEN url e : String) :
    GetPlannables (doFails e) CANVAS_ACCESS_TOKEN url = ⟨e, Except.error nilDereference⟩ ∧
    GetPlannables (readFails e) CANVAS_ACCESS_TOKEN url = ⟨"", Except.error nilDereference⟩ := by
  constructor
  · simp [GetPlannables, doFails, printIfError]
  · simp [GetPlannables, readFails, printIfError]

/-! ## `ParseLinkHeader` on the headers Canvas sends -/

/-- C1 (the code departs from it): on a header in the form Canvas sends, the
keys stored for the relations `current`, `next`, `prev` and `first` are the
relation names, but the key stored for `rel="last"` is `"ast"`: trimming with
the cutset `rel="` also removes the leading `l` of the name. -/
theorem ParseLinkHeader_last (CANVAS_ACCESS_TOKEN : String) :
    ParseLinkHeader CANVAS_ACCESS_TOKEN
      "<https://c/i?page=2>; rel=\"current\",<https://c/i?page=3>; rel=\"next\",<https://c/i?page=1>; rel=\"prev\",<https://c/i?page=1>; rel=\"first\",<https://c/i?page=9>; rel=\"last\""
      = Except.ok
        [("current", "https://c/i?page=2" ++ ("&access_token=" ++ CANVAS_ACCESS_TOKEN)),
         ("next", "https://c/i?page=3" ++ ("&access_token=" ++ CANVAS_ACCESS_TOKEN)),
         ("prev", "https://c/i?page=1" ++ ("&access_token=" ++ CANVAS_ACCESS_TOKEN)),
         ("first", "https://c/i?page=1" ++ ("&access_token=" ++ CANVAS_ACCESS_TOKEN)),
         ("ast", "https://c/i?page=9" ++ ("&access_token=" ++ CANVAS_ACCESS_TOKEN))] := by
  rfl

/-! ## Splitting -/

theorem splitChars_ne_nil (sep : Char) (s : List Char) : strings.splitChars sep s ≠ [] := by
  cases s with
  | nil => simp [strings.splitChars]
  | cons c cs =>
    simp only [strings.splitChars]
    split
    · simp
    · split <;> simp

theorem splitChars_of_not_mem (sep : Char) (s : List Char) (h : sep ∉ s) :
    strings.splitChars sep s = [s] := by
  induction s with
  | nil => rfl
  | cons c cs ih =>
    have hc : ¬ c = sep := fun e => h (by simp [e])
    have hcs : sep ∉ cs := fun e => h (by simp [e])
    simp [strings.splitChars, hc, ih hcs]

theorem splitChars_append_sep (sep : Char) (a rest : List Char) (h : sep ∉ a) :
    strings.splitChars sep (a ++ sep :: rest) = a :: strings.splitChars sep rest := by
  induction a with
  | nil => simp [strings.splitChars]
  | cons c cs ih =>
    have hc : ¬ c = sep := fun e => h (by simp [e])
    have hcs : sep ∉ cs := fun e => h (by simp [e])
    simp [strings.splitChars, hc, ih hcs]

theorem splitChars_length_one_iff (sep : Char) (s : List Char) :
    (strings.splitChars sep s).length = 1 ↔ sep ∉ s := by
  constructor
  · intro hlen hmem
    obtain ⟨a, rest, rfl, ha⟩ : ∃ a rest, s = a ++ sep :: rest ∧ sep ∉ a := by
      obtain ⟨a, rest, hs, ha⟩ := List.eq_append_cons_of_mem hmem
      exact ⟨a, rest, hs, ha⟩
    rw [splitChars_append_sep sep a rest ha] at hlen
    have := splitChars_ne_nil sep rest
    cases hr : strings.splitChars sep rest with
    | nil => exact this hr
    | cons x xs => rw [hr] at hlen; simp at hlen
  · intro h
    rw [splitChars_of_not_mem sep s h]
    rfl

theorem Split_get_one (part : String) :
    (strings.Split part ';').get? 1 = none ↔ ';' ∉ part.toList := by
  rw [← splitChars_length_one_iff]
  have hne := splitChars_ne_nil ';' part.toList
  simp only [strings.Split, List.get?_eq_getElem?, List.getElem?_eq_none_iff, List.length_map]
  cases hr : strings.splitChars ';' part.toList with
  | nil => exact absurd hr hne
  | cons x xs => simp

/-! ## Where `ParseLinkHeader` panics -/

theorem linkEntry_error (T part : String) (h : ';' ∉ part.toList) :
    linkEntry T part = Except.error "index out of range [1] with length 1" := by
  have hs : strings.Split part ';' = [String.mk part.toList] := by
    rw [strings.Split, splitChars_of_not_mem ';' part.toList h]
    rfl
  rw [linkEntry, hs]
  simp only [List.get?, List.length]
  rfl

theorem linkEntry_ok (T part : String) (h : ';' ∈ part.toList) :
    ∃ kv, linkEntry T part = Except.ok kv := by
  have hg : (strings.Split part ';').get? 1 ≠ none := fun hn => (Split_get_one part).1 hn h
  rw [linkEntry]
  cases hsec : (strings.Split part ';').get? 1 with
  | none => exact absurd hsec hg
  | some second => exact ⟨_, rfl⟩

theorem parseParts_ok (T : String) (parts : List String) (links : GoMap)
    (h : ∀ part ∈ parts, ';' ∈ part.toList) : ∃ m, parseParts T parts links = Except.ok m := by
  induction parts generalizing links with
  | nil => exact ⟨links, rfl⟩
  | cons part rest ih =>
    obtain ⟨kv, hkv⟩ := linkEntry_ok T part (h part (List.mem_cons_self _ _))
    obtain ⟨rel, url⟩ := kv
    rw [parseParts, hkv]
    exact ih (GoMap.set links rel url) (fun q hq => h q (List.mem_cons_of_mem _ hq))

theorem parseParts_error (T : String) (parts : List String) (links : GoMap)
    (h : ∃ part ∈ parts, ';' ∉ part.toList) :
    parseParts T parts links = Except.error "index out of range [1] with length 1" := by
  induction parts generalizing links with
  | nil =>
    obtain ⟨part, hmem, _⟩ := h
    cases hmem
  | cons part rest ih =>
    by_cases hp : ';' ∈ part.toList
    · obtain ⟨kv, hkv⟩ := linkEntry_ok T part hp
      obtain ⟨rel, url⟩ := kv
      rw [parseParts, hkv]
      apply ih
      obtain ⟨q, hq, hqn⟩ := h
      rcases List.mem_cons.1 hq with rfl | hq1
      · exact absurd hp hqn
      · exact ⟨q, hq1, hqn⟩
    · rw [parseParts, linkEntry_error T part hp]

/-- C9, amended: `ParseLinkHeader` returns a map exactly when every
comma-separated part of the header holds a `';'`, and panics with an index out
of range exactly when some part holds none; the empty header, whose only part
is empty, is of the second kind. -/
theorem ParseLinkHeader_ok_iff (CANVAS_ACCESS_TOKEN linkHeader : String) :
    ((∃ links, ParseLinkHeader CANVAS_ACCESS_TOKEN linkHeader = Except.ok links) ↔
      ∀ part ∈ strings.Split linkHeader ',', ';' ∈ part.toList) ∧
    ((∃ part ∈ strings.Split linkHeader ',', ';' ∉ part.toList) ↔
      ParseLinkHeader CANVAS_ACCESS_TOKEN linkHeader
        = Except.error "index out of range [1] with length 1") ∧
    strings.Split "" ',' = [""] := by
  refine ⟨⟨?_, ?_⟩, ⟨?_, ?_⟩, rfl⟩
  · rintro ⟨links, hl⟩
    by_contra hn
    have hex : ∃ part ∈ strings.Split linkHeader ',', ';' ∉ part.toList := by
      by_contra hno
      apply hn
      intro part hpart
      by_contra hp
      exact hno ⟨part, hpart, hp⟩
    have := parseParts_error CANVAS_ACCESS_TOKEN _ [] hex
    rw [ParseLinkHeader] at hl
    rw [hl] at this
    cases this
  · intro h
    exact parseParts_ok CANVAS_ACCESS_TOKEN _ [] h
  · intro h
    exact parseParts_error CANVAS_ACCESS_TOKEN _ [] h
  · intro h
    by_contra hno
    have hall : ∀ part ∈ strings.Split linkHeader ',', ';' ∈ part.toList := by
      intro part hpart
      by_contra hp
      exact hno ⟨part, hpart, hp⟩
    obtain ⟨m, hm⟩ := parseParts_ok CANVAS_ACCESS_TOKEN _ [] hall
    rw [ParseLinkHeader] at h
    rw [h] at hm
    cases hm

/-- C9 as stated fails: on the empty header, which `Header.Get` returns when the
response has no `Link` header, the access `urlAndRel[1]` is out of range and no
map is returned. -/
theorem ParseLinkHeader_empty_panics :
    ParseLinkHeader "token" "" = Except.error "index out of range [1] with length 1" ∧
    ¬ ∃ links, ParseLinkHeader "token" "" = Except.ok links := by
  constructor
  · rfl
  · rintro ⟨links, h⟩
    cases h

/-! ## Trimming -/

theorem trimRightChars_snoc_mem (cutset l : List Char) (c : Char) (h : c ∈ cutset) :
    strings.trimRightChars cutset (l ++ [c]) = strings.trimRightChars cutset l := by
  simp [strings.trimRightChars, List.dropWhile_cons, h]

theorem trimRightChars_of_getLast (cutset l : List Char) (c : Char)
    (hl : l.getLast? = some c) (h : c ∉ cutset) : strings.trimRightChars cutset l = l := by
  obtain ⟨init, rfl⟩ : ∃ init, l = init ++ [c] := by
    rcases List.eq_nil_or_concat l with hnil | ⟨init, x, hx⟩
    · subst hnil; simp at hl
    · subst hx
      simp at hl
      subst hl
      exact ⟨init, by simp⟩
  simp [strings.trimRightChars, List.dropWhile_cons, h]

theorem trimLeftChars_cons_mem (cutset l : List Char) (c : Char) (h : c ∈ cutset) :
    strings.trimLeftChars cutset (c :: l) = strings.trimLeftChars cutset l := by
  simp [strings.trimLeftChars, List.dropWhile_cons, h]

theorem trimLeftChars_of_head (cutset l : List Char) (c : Char)
    (hl : l.head? = some c) (h : c ∉ cutset) : strings.trimLeftChars cutset l = l := by
  cases l with
  | nil => simp at hl
  | cons x xs =>
    simp at hl
    subst hl
    simp [strings.trimLeftChars, List.dropWhile_cons, h]

/-- Trimming `<URL>` with the cutset `" <>"` gives back a plain `URL`. -/
theorem Trim_angle (u : String) (h : plainURL u) :
    strings.Trim (String.mk ('<' :: u.toList ++ ['>'])) " <>" = u := by
  obtain ⟨_, _, hhead, hlast⟩ := h
  have hcut : (" <>" : String).toList = [' ', '<', '>'] := rfl
  show String.mk (strings.trimLeftChars (" <>" : String).toList
    (strings.trimRightChars (" <>" : String).toList ('<' :: u.toList ++ ['>']))) = u
  rw [hcut]
  cases hu : u.toList with
  | nil =>
    have : u = "" := by
      cases u
      simp only [String.toList] at hu
      subst hu
      rfl
    subst this
    rfl
  | cons x xs =>
    rw [hu] at hhead hlast
    have hx : x ∉ [' ', '<', '>'] := by
      intro hm
      apply hhead
      simp only [List.head?_cons]
      simp only [List.mem_cons, List.mem_singleton, List.not_mem_nil, or_false] at hm ⊢
      rcases hm with rfl | rfl | rfl <;> simp
    obtain ⟨y, hy⟩ : ∃ y, (x :: xs).getLast? = some y :=
      ⟨(x :: xs).getLast (by simp), List.getLast?_eq_getLast _ (by simp)⟩
    have hyc : y ∉ [' ', '<', '>'] := by
      intro hm
      apply hlast
      rw [hy]
      simp only [List.mem_cons, List.mem_singleton, List.not_mem_nil, or_false] at hm ⊢
      rcases hm with rfl | rfl | rfl <;> simp
    have h1 : '<' :: (x :: xs) ++ ['>'] = ('<' :: x :: xs) ++ ['>'] := rfl
    rw [h1, trimRightChars_snoc_mem _ _ '>' (by simp)]
    have h2 : ('<' :: x :: xs).getLast? = some y := by
      rw [List.getLast?_cons_cons]; exact hy
    rw [trimRightChars_of_getLast _ _ y h2 hyc,
      trimLeftChars_cons_mem _ _ '<' (by simp),
      trimLeftChars_of_head _ (x :: xs) x rfl hx, ← hu]
    rfl

/-! ## The value stored for a part -/

theorem linkPart_toList (p : String × String) :
    (linkPart p).toList
      = ('<' :: p.1.toList ++ ['>'])
        ++ ';' :: ([' ', 'r', 'e', 'l', '=', '"'] ++ p.2.toList ++ ['"']) := by
  simp only [linkPart, String.toList, String.data_append]
  show (['<'] ++ p.1.data ++ ['>', ';', ' ', 'r', 'e', 'l', '=', '"'] ++ p.2.data ++ ['"']) = _
  simp

theorem linkEntry_linkPart (T : String) (p : String × String) (h : plainURL p.1) :
    linkEntry T (linkPart p) = Except.ok (storedEntry T p) := by
  have hsemi : ';' ∉ ('<' :: p.1.toList ++ ['>']) := by
    have := h.2.1
    simp only [String.toList] at this
    simp [this]
  have hsplit : strings.splitChars ';' (linkPart p).toList
      = ('<' :: p.1.toList ++ ['>'])
        :: strings.splitChars ';' ([' ', 'r', 'e', 'l', '=', '"'] ++ p.2.toList ++ ['"']) := by
    rw [linkPart_toList, splitChars_append_sep _ _ _ hsemi]
  have hrel : (" rel=\"" ++ p.2 ++ "\"" : String).toList
      = [' ', 'r', 'e', 'l', '=', '"'] ++ p.2.toList ++ ['"'] := by
    simp only [String.toList, String.data_append]
  cases hrest : strings.splitChars ';' ([' ', 'r', 'e', 'l', '=', '"'] ++ p.2.toList ++ ['"']) with
  | nil => exact absurd hrest (splitChars_ne_nil _ _)
  | cons second more =>
    rw [hrest] at hsplit
    have hkey : storedKey p.2
        = strings.Trim (strings.Trim (strings.Trim (String.mk second) " ") "rel=\"") "\"" := by
      rw [storedKey, strings.Split, hrel, hrest]
      rfl
    rw [linkEntry, strings.Split, hsplit, storedEntry, hkey]
    simp only [List.map_cons, List.get?, List.headD_cons]
    rw [Trim_angle p.1 h, String.append_assoc]

theorem linkPart_no_comma (p : String × String) (hu : ',' ∉ p.1.toList)
    (hn : ',' ∉ p.2.toList) : ',' ∉ (linkPart p).toList := by
  rw [linkPart_toList]
  simp only [String.toList] at hu hn
  simp [hu, hn]

theorem Split_linkHeaderOf (ps : List (String × String)) (hne : ps ≠ [])
    (h : ∀ p ∈ ps, ',' ∉ p.1.toList ∧ ',' ∉ p.2.toList) :
    strings.Split (linkHeaderOf ps) ',' = ps.map linkPart := by
  induction ps with
  | nil => exact absurd rfl hne
  | cons p rest ih =>
    have hp := h p (List.mem_cons_self _ _)
    have hcomma := linkPart_no_comma p hp.1 hp.2
    cases rest with
    | nil =>
      simp only [linkHeaderOf, strings.Split, List.map_cons, List.map_nil]
      rw [splitChars_of_not_mem _ _ hcomma]
      rfl
    | cons q rest =>
      have ih1 := ih (by simp) (fun r hr => h r (List.mem_cons_of_mem _ hr))
      have hl : (linkHeaderOf (p :: q :: rest)).toList
          = (linkPart p).toList ++ ',' :: (linkHeaderOf (q :: rest)).toList := by
        simp only [linkHeaderOf, String.toList, String.data_append]
        show (linkPart p).data ++ [','] ++ _ = _
        simp
      rw [strings.Split, hl, splitChars_append_sep _ _ _ hcomma]
      rw [strings.Split] at ih1
      rw [List.map_cons, ih1]
      rfl

theorem parseParts_entries (T : String) (ps : List (String × String)) (links : GoMap)
    (h : ∀ p ∈ ps, linkEntry T (linkPart p) = Except.ok (storedEntry T p)) :
    parseParts T (ps.map linkPart) links
      = Except.ok (ps.foldl
          (fun links p => GoMap.set links (storedEntry T p).1 (storedEntry T p).2) links) := by
  induction ps generalizing links with
  | nil => rfl
  | cons p rest ih =>
    rw [List.map_cons, parseParts, h p (List.mem_cons_self _ _)]
    exact ih _ (fun q hq => h q (List.mem_cons_of_mem _ hq))

theorem set_of_not_mem (m : GoMap) (k v : String) (h : k ∉ m.map Prod.fst) :
    GoMap.set m k v = m ++ [(k, v)] := by
  induction m with
  | nil => rfl
  | cons e m ih =>
    obtain ⟨k1, v1⟩ := e
    have h1 : ¬ k1 = k := fun e => h (by simp [e])
    have h2 : k ∉ m.map Prod.fst := fun e => h (by simp [e])
    simp [GoMap.set, h1, ih h2]

theorem foldl_set_nodup (es : List (String × String)) (m : GoMap)
    (h : (m.map Prod.fst ++ es.map Prod.fst).Nodup) :
    es.foldl (fun links e => GoMap.set links e.1 e.2) m = m ++ es := by
  induction es generalizing m with
  | nil => simp
  | cons e rest ih =>
    have hk : e.1 ∉ m.map Prod.fst := by
      intro hm
      rw [List.nodup_append] at h
      exact h.2.2 hm (by simp)
    rw [List.foldl_cons, set_of_not_mem m e.1 e.2 hk, ih]
    · simp
    · simpa [List.map_append, List.append_assoc] using h

theorem lookup_set (m : GoMap) (k v k1 : String) :
    GoMap.lookup (GoMap.set m k v) k1 = if k = k1 then some v else GoMap.lookup m k1 := by
  induction m with
  | nil => simp [GoMap.set, GoMap.lookup]
  | cons e m ih =>
    obtain ⟨k2, v2⟩ := e
    by_cases h2 : k2 = k
    · subst h2
      by_cases h1 : k2 = k1
      · simp [GoMap.set, GoMap.lookup, h1]
      · simp [GoMap.set, GoMap.lookup, h1]
    · by_cases h1 : k2 = k1
      · subst h1
        simp [GoMap.set, GoMap.lookup, h2, Ne.symm h2]
      · simp [GoMap.set, GoMap.lookup, h2, h1, ih]

theorem lookup_foldl_of_absent (es : List (String × String)) (m : GoMap) (k : String)
    (h : ∀ e ∈ es, e.1 ≠ k) :
    GoMap.lookup (es.foldl (fun links e => GoMap.set links e.1 e.2) m) k = GoMap.lookup m k := by
  induction es generalizing m with
  | nil => rfl
  | cons e rest ih =>
    rw [List.foldl_cons, ih _ (fun q hq => h q (List.mem_cons_of_mem _ hq)), lookup_set,
      if_neg (h e (List.mem_cons_self _ _))]

/-- After the writes `es` every key written holds the value of one of the
writes to that key. -/
theorem lookup_foldl_set (es : List (String × String)) (m : GoMap) :
    ∀ e ∈ es, ∃ q ∈ es, q.1 = e.1 ∧
      GoMap.lookup (es.foldl (fun links e => GoMap.set links e.1 e.2) m) e.1 = some q.2 := by
  induction es generalizing m with
  | nil => intro e he; cases he
  | cons a rest ih =>
    intro e he
    by_cases hex : ∃ q ∈ rest, q.1 = e.1
    · obtain ⟨q, hq, hqe⟩ := hex
      obtain ⟨q1, hq1, hk, hl⟩ := ih (GoMap.set m a.1 a.2) q hq
      rw [hqe] at hk hl
      exact ⟨q1, List.mem_cons_of_mem _ hq1, hk, hl⟩
    · have hnone : ∀ q ∈ rest, q.1 ≠ e.1 := fun q hq hqe => hex ⟨q, hq, hqe⟩
      have hea : e = a := by
        rcases List.mem_cons.1 he with h1 | h1
        · exact h1
        · exact absurd rfl (hnone e h1)
      subst hea
      refine ⟨e, List.mem_cons_self _ _, rfl, ?_⟩
      rw [List.foldl_cons, lookup_foldl_of_absent rest _ e.1 hnone, lookup_set, if_pos rfl]

/-- C2, amended: let a Link header be made of one or more comma-separated parts
`<URL>; rel="NAME"`, every URL plain (no `','`, no `';'`, neither starting nor
ending with `' '`, `'<'`, `'>'`) and no NAME holding the separator `','`, and
let `T` be the value of `CANVAS_ACCESS_TOKEN`.  Then the parts that
`ParseLinkHeader` iterates over are exactly these parts; the value each part
writes into the map is `URL ++ "&access_token=" ++ T`; the function returns
exactly the map that these writes, made in order, build from the empty map, so
every part's key holds the URL-with-credential of a part with that key, and
when the keys are distinct the map has one entry per part; for a header of a
single part the map has exactly one entry, whose value is that string. -/
theorem ParseLinkHeader_values (T : String) (ps : List (String × String)) (hne : ps ≠ [])
    (hurl : ∀ p ∈ ps, plainURL p.1) (hname : ∀ p ∈ ps, ',' ∉ p.2.toList) :
    strings.Split (linkHeaderOf ps) ',' = ps.map linkPart ∧
    (∀ p ∈ ps,
      linkEntry T (linkPart p) = Except.ok (storedKey p.2, p.1 ++ "&access_token=" ++ T)) ∧
    ParseLinkHeader T (linkHeaderOf ps)
      = Except.ok (ps.foldl
          (fun links p => GoMap.set links (storedKey p.2) (p.1 ++ "&access_token=" ++ T)) []) ∧
    (∀ p ∈ ps, ∃ links q, ParseLinkHeader T (linkHeaderOf ps) = Except.ok links ∧ q ∈ ps ∧
      storedKey q.2 = storedKey p.2 ∧
      GoMap.lookup links (storedKey p.2) = some (q.1 ++ "&access_token=" ++ T)) ∧
    ((ps.map (fun p => storedKey p.2)).Nodup →
      ParseLinkHeader T (linkHeaderOf ps)
        = Except.ok (ps.map (fun p => (storedKey p.2, p.1 ++ "&access_token=" ++ T)))) ∧
    (∀ u name, ps = [(u, name)] →
      ParseLinkHeader T (linkHeaderOf ps)
        = Except.ok [(storedKey name, u ++ "&access_token=" ++ T)]) := by
  have hsplit := Split_linkHeaderOf ps hne (fun p hp => ⟨(hurl p hp).1, hname p hp⟩)
  have hentry : ∀ p ∈ ps, linkEntry T (linkPart p) = Except.ok (storedEntry T p) :=
    fun p hp => linkEntry_linkPart T p (hurl p hp)
  have hfold : ps.foldl
        (fun links p => GoMap.set links (storedEntry T p).1 (storedEntry T p).2) []
      = (ps.map (storedEntry T)).foldl (fun links e => GoMap.set links e.1 e.2) [] := by
    rw [List.foldl_map]
  have hmap : ParseLinkHeader T (linkHeaderOf ps)
      = Except.ok ((ps.map (storedEntry T)).foldl (fun links e => GoMap.set links e.1 e.2) []) := by
    rw [ParseLinkHeader, hsplit, parseParts_entries T ps [] hentry, hfold]
  refine ⟨hsplit, hentry, ?_, ?_, ?_, ?_⟩
  · rw [hmap, ← hfold]
    rfl
  · intro p hp
    obtain ⟨e, he, hk, hl⟩ := lookup_foldl_set (ps.map (storedEntry T)) [] (storedEntry T p)
      (List.mem_map_of_mem _ hp)
    obtain ⟨q, hq, rfl⟩ := List.mem_map.1 he
    exact ⟨_, q, hmap, hq, hk, hl⟩
  · intro hnd
    rw [hmap, foldl_set_nodup]
    · rfl
    · simpa [List.map_map, Function.comp_def, storedEntry] using hnd
  · intro u name hps
    rw [hmap, hps]
    rfl

theorem ParseLinkHeader_values_witness :
    (twoParts ≠ [] ∧ (∀ p ∈ twoParts, plainURL p.1) ∧ ∀ p ∈ twoParts, ',' ∉ p.2.toList)
    ∧ ParseLinkHeader "tok"
        "<https://c/i?page=3>; rel=\"next\",<https://c/i?page=9>; rel=\"last\""
      = Except.ok [("next", "https://c/i?page=3&access_token=tok"),
          ("ast", "https://c/i?page=9&access_token=tok")] :=
  ⟨⟨by decide, by decide, by decide⟩,
    (ParseLinkHeader_values "tok" twoParts (by decide) (by decide) (by decide)).2.2.1⟩

/-- C2 as stated fails: the claim puts no condition on NAME, and for the
single part `<https://a>; rel="a,b"`, whose URL is plain, the comma inside the
name splits the header in two; the second piece holds no `';'`, so the function
panics and returns no map at all. -/
theorem ParseLinkHeader_comma_in_name :
    plainURL "https://a" ∧
    linkHeaderOf [("https://a", "a,b")] = "<https://a>; rel=\"a,b\"" ∧
    ParseLinkHeader "tok" (linkHeaderOf [("https://a", "a,b")])
      = Except.error "index out of range [1] with length 1" ∧
    ¬ ∃ key, ParseLinkHeader "tok" (linkHeaderOf [("https://a", "a,b")])
      = Except.ok [(key, "https://a" ++ "&access_token=" ++ "tok")] := by
  refine ⟨by decide, by decide, rfl, ?_⟩
  rintro ⟨key, h⟩
  cases h

end CanvasUtils
